import Mathlib

/-!
Verification development for the goodtables inspection engine
(`src/goodtables/inspector.py`).

The engine is embedded shallowly:

* Python dicts with a fixed key set become structures; a key that may be
  absent becomes an `Option` field (`Option.none` = key absent).
* `zip_longest(xs, ys, fillvalue=_FILLVALUE)` becomes `zipLongest`, whose
  elements are `Padded` values: `Padded.fill` is the module-level sentinel
  object `_FILLVALUE`, `Padded.val a` is an element of the source list.
  The source compares with `is` / `is not` (CPython object identity): a
  string supplied by an external reader is a fresh object, so it is never
  identical to the module sentinel even when its characters are
  `"_FILLVALUE"`.  `Padded` models exactly that identity distinction.
* Raised Python exceptions become `Except.error` carrying a `PyExc`.
* The thread pool of `Inspector.inspect` becomes an explicit completion
  schedule (`sched`): the pool finishes the per-table tasks in an arbitrary
  order, each completed future holds `(task index, outcome)`, and the join
  phase reads each future positionally, exactly as `zip(tasks, extras)` +
  `task.get()` does.
* Per-check body state (`states.setdefault(check.code, ...)`, then mutated
  in place by the check) becomes a function `String → σ` threaded through
  the row loop, for an arbitrary inhabited state type `σ`.
-/

namespace Goodtables

/-- Exceptions that can propagate out of the engine.  `raised n` stands for
an exception raised by an external collaborator (stream open / headers /
sample / schema access); `keyError k` models a Python `KeyError` on dict
key `k`; `typeError` models the `TypeError` raised by `len(None)`;
`futureMissing` is the model-internal outcome of joining a future that was
never completed (unreachable for a genuine completion schedule). -/
inductive PyExc where
  | raised (id : Nat)
  | keyError (key : String)
  | typeError
  | futureMissing
  deriving DecidableEq, Repr

/-- Configuration-time failure of `Inspector.__prepare_checks` (the source
raises `exceptions.GoodtablesException`).  `dependencyError code` is the
"requires all checks before" failure for check `code`. -/
inductive GtExc where
  | dependencyError (code : String)
  deriving DecidableEq, Repr

/-- Element of a `zip_longest` iteration: either the padding sentinel object
`_FILLVALUE` (`fill`) or an element of the underlying list (`val`).  The
source's `x is _FILLVALUE` test is object identity, so `val "_FILLVALUE"`
(a reader-supplied string with those characters) is distinct from `fill`
(the module constant). -/
inductive Padded (α : Type) where
  | fill
  | val (a : α)
  deriving DecidableEq, Repr

/-- Translation of `six.moves.zip_longest(xs, ys, fillvalue=_FILLVALUE)`:
pair the two lists positionally, padding the shorter side with `fill`. -/
def zipLongest {α β : Type} : List α → List β → List (Padded α × Padded β)
  | [], bs => bs.map fun b => (Padded.fill, Padded.val b)
  | a :: as, [] => (Padded.val a, Padded.fill) :: zipLongest as []
  | a :: as, b :: bs => (Padded.val a, Padded.val b) :: zipLongest as bs

/-- Padded positional lookup: the element the `zip_longest` iterator yields
on side `l` at 0-based offset `i`. -/
def padGet {α : Type} (l : List α) (i : Nat) : Padded α :=
  match l[i]? with
  | some a => Padded.val a
  | none => Padded.fill

/-- Contents of a cell's `value` key for a given value slot: absent for the
padding sentinel, present otherwise. -/
def padValue : Padded String → Option String
  | Padded.fill => Option.none
  | Padded.val v => some v

/-- Pair a list with 1-based-from-`n` positions, as `enumerate(it, start=n)`
does. -/
def enum1 {α : Type} : Nat → List α → List (Nat × α)
  | _, [] => []
  | n, a :: as => (n, a) :: enum1 (n + 1) as

/-- Opaque schema-field capability (`schema.fields` elements).  The engine
never looks inside a field; it only moves it around. -/
structure Field where
  name : String
  deriving DecidableEq, Repr

/-- Column descriptor built by the "Prepare columns" block: the dict
`column` with mandatory key `number`, and optional keys `header` (absent
when `zip_longest` padded the header side) and `field`.  A present `field`
key may hold Python `None` (from `fields = [None] * len(headers)`), hence
the nested `Option`. -/
structure Column where
  number : Nat
  header : Option String := Option.none
  field : Option (Option Field) := Option.none
  deriving DecidableEq, Repr

/-- Cell descriptor built per row in the body loop: keys `row-number` and
`col-number` are always present; `header` and `field` are copied from the
column when the column slot is not the padding sentinel; `value` is present
when the value slot is not the padding sentinel. -/
structure Cell where
  rowNumber : Nat
  colNumber : Nat
  header : Option String := Option.none
  field : Option (Option Field) := Option.none
  value : Option String := Option.none
  deriving DecidableEq, Repr

/-- Error record.  The check function fills `message`, `rowNumber`
(`row-number`) and `columnNumber` (`column-number`); the engine then
overwrites `row` (raw row data, Python `None` outside the body phase) and
`code` via `error.update(...)`. -/
structure Error where
  message : String := ""
  rowNumber : Option Nat := Option.none
  columnNumber : Option Nat := Option.none
  row : Option (List String) := Option.none
  code : String := ""
  deriving DecidableEq, Repr

/-- Per-table report composed at the end of `__inspect_table` (the wall
clock `time` key is not modeled). -/
structure Report where
  valid : Bool
  errorCount : Nat
  rowCount : Nat
  headers : List String
  errors : List Error
  deriving DecidableEq, Repr

/-- Check executable, with the context-dependent signature of §6 of the
spec: a `table` check maps the causing exception to errors; a `head` check
maps `(columns, sample)` to errors and may mutate the column list (returned
updated); a `body` check maps `(cells, state)` to errors and may mutate the
cell list and its private state (both returned updated). -/
inductive CheckFunc (σ : Type) where
  | table (f : PyExc → List Error)
  | head (f : List Column → List (List String) → List Error × List Column)
  | body (f : List Cell → σ → List Error × List Cell × σ)

/-- Check descriptor from `spec.json` with its resolved executable:
`code`, `type` (the category: `"structure"` or `"schema"`), `context`
(`"table"`, `"head"` or `"body"`), and the `requires` code list. -/
structure Check (σ : Type) where
  code : String
  type : String
  context : String
  requires : List String
  func : CheckFunc σ

/-- Invoke a `table`-context check on the causing exception
(`check['func'](exception)`).  A registered check's executable matches its
declared context; the mismatch branch is never exercised. -/
def applyTableCheck {σ : Type} (c : Check σ) (e : PyExc) : List Error :=
  match c.func with
  | CheckFunc.table f => f e
  | _ => []

/-- Invoke a `head`-context check (`check['func'](columns, sample)`). -/
def applyHeadCheck {σ : Type} (c : Check σ) (columns : List Column)
    (sample : List (List String)) : List Error × List Column :=
  match c.func with
  | CheckFunc.head f => f columns sample
  | _ => ([], columns)

/-- Invoke a `body`-context check (`check['func'](cells, state)`). -/
def applyBodyCheck {σ : Type} (c : Check σ) (cells : List Cell) (st : σ) :
    List Error × List Cell × σ :=
  match c.func with
  | CheckFunc.body f => f cells st
  | _ => ([], cells, st)

/-- Selection policy accepted by `Inspector.__prepare_checks`: the closed
set of shapes the source dispatches on (`'all'`, `'structure'`, `'schema'`,
or a `code → bool` mapping, modeled as an association list). -/
inductive ChecksConfig where
  | all
  | structureOnly
  | schemaOnly
  | custom (cfg : List (String × Bool))

/-- Selection stage of `__prepare_checks`: filter the registry according to
the policy.  For a custom mapping the implicit default is
`True not in config.values()`, and a listed code is kept exactly when its
mapped value is truthy (`config.get(check['code'], default)`). -/
def selectChecks {σ : Type} (registry : List (Check σ)) :
    ChecksConfig → List (Check σ)
  | ChecksConfig.all => registry
  | ChecksConfig.structureOnly => registry.filter fun c => c.type == "structure"
  | ChecksConfig.schemaOnly => registry.filter fun c => c.type == "schema"
  | ChecksConfig.custom cfg =>
      let dflt := !(cfg.any fun p => p.2)
      registry.filter fun c => ((cfg.lookup c.code).getD dflt)

/-- Dependency validation stage of `__prepare_checks` ("Ensure requires"):
walk the selected checks in order, keeping the set of codes seen so far;
fail on the first check whose `requires` is not a subset of that set. -/
def checkRequires {σ : Type} : List (Check σ) → List String → Except GtExc Unit
  | [], _ => Except.ok ()
  | c :: cs, codes =>
      if c.requires.all fun r => codes.contains r then
        checkRequires cs (codes ++ [c.code])
      else
        Except.error (GtExc.dependencyError c.code)

/-- Translation of `Inspector.__prepare_checks` over a given registry (the
catalog loaded from `spec.json` with executables attached): select by
policy, then validate dependency order; runs at `Inspector.__init__` time,
before any table work. -/
def prepareChecks {σ : Type} (registry : List (Check σ)) (config : ChecksConfig) :
    Except GtExc (List (Check σ)) :=
  let checks := selectChecks registry config
  match checkRequires checks [] with
  | Except.ok _ => Except.ok checks
  | Except.error e => Except.error e

/-- Translation of `Inspector.__filter_checks(type=..., context=...)`:
`Option.none` stands for an omitted (falsy) keyword argument. -/
def filterChecks {σ : Type} (checks : List (Check σ))
    (type : Option String) (context : Option String) : List (Check σ) :=
  checks.filter fun c =>
    (match type with
     | Option.none => true
     | some t => c.type == t)
    &&
    (match context with
     | Option.none => true
     | some x => c.context == x)

/-- Whether any schema-category check is selected, which is what decides
whether `table.schema` is accessed during acquisition
(`if self.__filter_checks(type='schema')`). -/
def schemaRequested {σ : Type} (checks : List (Check σ)) : Bool :=
  !(filterChecks checks (some "schema") Option.none).isEmpty

/-- External table handle: the reader/stream capability at its interface.
Each acquisition step (`stream.open()`, `table.schema`, `stream.headers`,
`stream.sample`) either succeeds or raises the recorded exception;
`rows` is what `stream.iter(extended=True)` yields, as
`(row position, raw values)` pairs (the stream also re-yields its headers
with every row; the engine's rebinding of `headers` to that same value is
not modeled separately). -/
structure Table where
  openExc : Option PyExc := Option.none
  schemaExc : Option PyExc := Option.none
  schemaFields : List Field := []
  headersExc : Option PyExc := Option.none
  headers : List String := []
  sampleExc : Option PyExc := Option.none
  sample : List (List String) := []
  rows : List (Nat × List String) := []

/-- Partial acquisition state at the moment the "Table checks" `try` block
failed: the causing exception, plus the values of the local variables
`headers` (still `None` unless `headers = stream.headers` had already run)
and `schema` (still `None` unless assigned). -/
structure FatalInfo where
  exc : PyExc
  headers : Option (List String)
  schema : Option (List Field)
  deriving DecidableEq, Repr

/-- Stream acquisition, the body of the `try` block of `__inspect_table`:
open the stream, read the schema only if a schema-category check is
selected, then headers, then the sample.  On failure the partial variable
state is recorded. -/
def acquire (schemaNeeded : Bool) (t : Table) :
    Except FatalInfo (List String × List (List String) × Option (List Field)) :=
  match t.openExc with
  | some e => Except.error ⟨e, Option.none, Option.none⟩
  | Option.none =>
    let step2 : Except FatalInfo (Option (List Field)) :=
      if schemaNeeded then
        match t.schemaExc with
        | some e => Except.error ⟨e, Option.none, Option.none⟩
        | Option.none => Except.ok (some t.schemaFields)
      else Except.ok Option.none
    match step2 with
    | Except.error f => Except.error f
    | Except.ok schema =>
      match t.headersExc with
      | some e => Except.error ⟨e, Option.none, schema⟩
      | Option.none =>
        match t.sampleExc with
        | some e => Except.error ⟨e, some t.headers, schema⟩
        | Option.none => Except.ok (t.headers, t.sample, schema)

/-- Errors collected in the `except` branch: every `table`-context check is
applied to the exception and each produced error is updated with
`row: None` and the check's code. -/
def tableErrors {σ : Type} (checks : List (Check σ)) (e : PyExc) : List Error :=
  (filterChecks checks Option.none (some "table")).flatMap fun c =>
    (applyTableCheck c e).map fun er => { er with row := Option.none, code := c.code }

/-- Column descriptor for one `zip_longest(headers, fields)` slot: the
`number` key is always set; `header` / `field` keys are set only when the
corresponding side is not the padding sentinel. -/
def mkColumn (number : Nat) (ph : Padded String) (pf : Padded (Option Field)) : Column :=
  { number := number
    header := match ph with
      | Padded.fill => Option.none
      | Padded.val h => some h
    field := match pf with
      | Padded.fill => Option.none
      | Padded.val f => some f }

/-- Translation of the "Prepare columns" block (given that `len(headers)`
succeeded): `fields` is `[None] * len(headers)` unless a schema was
acquired, and the columns are numbered from 1 over
`zip_longest(headers, fields, fillvalue=_FILLVALUE)`. -/
def prepareColumns (headers : List String) (schema : Option (List Field)) : List Column :=
  let fields : List (Option Field) :=
    match schema with
    | Option.none => List.replicate headers.length Option.none
    | some s => s.map some
  (enum1 1 (zipLongest headers fields)).map fun p => mkColumn p.1 p.2.1 p.2.2

/-- Head phase: run every `head`-context check in order against the sample
and the (possibly already mutated) column list, tagging each produced error
with `row: None` and the check code. -/
def runHeadChecks {σ : Type} (headChecks : List (Check σ))
    (sample : List (List String)) (columns : List Column) :
    List Error × List Column :=
  match headChecks with
  | [] => ([], columns)
  | c :: cs =>
    let r := applyHeadCheck c columns sample
    let tagged := r.1.map fun er => { er with row := Option.none, code := c.code }
    let rest := runHeadChecks cs sample r.2
    (tagged ++ rest.1, rest.2)

/-- Cell construction for one `zip_longest(columns, row)` slot.  The dict
literal sets `row-number` / `col-number`; if the column slot is not the
padding sentinel the source then reads `column['header']` and
`column['field']` unconditionally, so a column missing either key raises
a `KeyError`; finally the value is stored when the value slot is not the
padding sentinel. -/
def buildCell (rowNumber colNumber : Nat) (pc : Padded Column) (pv : Padded String) :
    Except PyExc Cell :=
  let base : Cell := { rowNumber := rowNumber, colNumber := colNumber }
  let withValue : Cell → Cell := fun cell =>
    match pv with
    | Padded.fill => cell
    | Padded.val v => { cell with value := some v }
  match pc with
  | Padded.fill => Except.ok (withValue base)
  | Padded.val col =>
    match col.header with
    | Option.none => Except.error (PyExc.keyError "header")
    | some h =>
      match col.field with
      | Option.none => Except.error (PyExc.keyError "field")
      | some f => Except.ok (withValue { base with header := some h, field := some f })

/-- Cell construction over an already zipped row, numbering columns from
`n`; the first `KeyError` aborts the row (and the whole table inspection),
as an uncaught exception does in the source loop. -/
def buildCellsGo (rowNumber : Nat) : Nat → List (Padded Column × Padded String) →
    Except PyExc (List Cell)
  | _, [] => Except.ok []
  | n, (pc, pv) :: rest =>
    match buildCell rowNumber n pc pv with
    | Except.error e => Except.error e
    | Except.ok cell =>
      match buildCellsGo rowNumber (n + 1) rest with
      | Except.error e => Except.error e
      | Except.ok cells => Except.ok (cell :: cells)

/-- Cell model for one streamed row: enumerate
`zip_longest(columns, row, fillvalue=_FILLVALUE)` from 1. -/
def buildCells (columns : List Column) (rowNumber : Nat) (row : List String) :
    Except PyExc (List Cell) :=
  buildCellsGo rowNumber 1 (zipLongest columns row)

/-- Inner check loop of the body phase for one row: walk the `body`-context
checks in order, breaking out as soon as the (check-mutated) cell list is
empty; each check reads its private state slot (`states.setdefault`) and
writes it back; produced errors are tagged with the raw row data and the
check code.  Returns the collected errors, the final cell list and the
updated state map. -/
def runRowChecks {σ : Type} (bodyChecks : List (Check σ)) (cells : List Cell)
    (states : String → σ) (rowData : List String) :
    List Error × List Cell × (String → σ) :=
  match bodyChecks with
  | [] => ([], cells, states)
  | c :: cs =>
    if cells.isEmpty then ([], cells, states)
    else
      let r := applyBodyCheck c cells (states c.code)
      let tagged := r.1.map fun er => { er with row := some rowData, code := c.code }
      let states2 : String → σ := fun code => if code == c.code then r.2.2 else states code
      let rest := runRowChecks cs r.2.1 states2 rowData
      (tagged ++ rest.1, rest.2.1, rest.2.2)

/-- Body phase row loop.  For each yielded `(row_number, row)`: first the
row-limit test (`row_number >= row_limit` breaks with this row
unprocessed but with the loop variable already rebound), then cell
construction, then the per-row check loop, then the error-limit test
(`len(errors) >= error_limit` breaks after the row).  Returns the final
value of the `row_number` variable and the accumulated error list. -/
def bodyLoop {σ : Type} (bodyChecks : List (Check σ)) (rowLimit errorLimit : Nat)
    (columns : List Column) :
    List (Nat × List String) → Nat → (String → σ) → List Error →
    Except PyExc (Nat × List Error)
  | [], rowNumber, _, errors => Except.ok (rowNumber, errors)
  | (pos, row) :: rest, _, states, errors =>
    if rowLimit ≤ pos then Except.ok (pos, errors)
    else
      match buildCells columns pos row with
      | Except.error e => Except.error e
      | Except.ok cells =>
        let r := runRowChecks bodyChecks cells states row
        let errors2 := errors ++ r.1
        if errorLimit ≤ errors2.length then Except.ok (pos, errors2)
        else bodyLoop bodyChecks rowLimit errorLimit columns rest pos r.2.2 errors2

/-- Report composition ("Compose report"): truncate the errors to the error
limit, then fill the report fields from the truncated list. -/
def composeReport (errorLimit : Nat) (rowNumber : Nat) (headers : List String)
    (errors : List Error) : Report :=
  let errors2 := errors.take errorLimit
  { valid := errors2.isEmpty
    errorCount := errors2.length
    rowCount := rowNumber
    headers := headers
    errors := errors2 }

/-- Translation of `Inspector.__inspect_table`.  On an acquisition failure
the `table`-context checks run; with no collected errors the exception is
re-raised; otherwise control falls through to "Prepare columns", which
evaluates `[None] * len(headers)` — a `TypeError` when the failure happened
before `headers` was assigned.  On the non-fatal path the column model is
built, head checks run, then the body loop, then the report. -/
def inspectTable {σ : Type} [Inhabited σ] (checks : List (Check σ))
    (rowLimit errorLimit : Nat) (t : Table) : Except PyExc Report :=
  match acquire (schemaRequested checks) t with
  | Except.error f =>
    let errors := tableErrors checks f.exc
    if errors.isEmpty then Except.error f.exc
    else
      match f.headers with
      | Option.none => Except.error PyExc.typeError
      | some headers =>
        let _cols := prepareColumns headers f.schema
        Except.ok (composeReport errorLimit 0 headers errors)
  | Except.ok (headers, sample, schema) =>
    let columns := prepareColumns headers schema
    let head := runHeadChecks (filterChecks checks Option.none (some "head")) sample columns
    let bodyChecks := filterChecks checks Option.none (some "body")
    match bodyLoop bodyChecks rowLimit errorLimit head.2 t.rows 0
        (fun _ => default) head.1 with
    | Except.error e => Except.error e
    | Except.ok (rowNumber, errors) =>
      Except.ok (composeReport errorLimit rowNumber headers errors)

/-- Body phase with the error-limit control removed, and the final report
taken from the untruncated error list.  This is the comparison point for
the spec's counterfactual "errors that would otherwise have been produced"
in the error-limit claim; it is `bodyLoop` minus the
`len(errors) >= error_limit` break. -/
def bodyLoopAll {σ : Type} (bodyChecks : List (Check σ)) (rowLimit : Nat)
    (columns : List Column) :
    List (Nat × List String) → Nat → (String → σ) → List Error →
    Except PyExc (Nat × List Error)
  | [], rowNumber, _, errors => Except.ok (rowNumber, errors)
  | (pos, row) :: rest, _, states, errors =>
    if rowLimit ≤ pos then Except.ok (pos, errors)
    else
      match buildCells columns pos row with
      | Except.error e => Except.error e
      | Except.ok cells =>
        let r := runRowChecks bodyChecks cells states row
        bodyLoopAll bodyChecks rowLimit columns rest pos r.2.2 (errors ++ r.1)

/-- Counterfactual inspection without any error limit (same phases as
`inspectTable`, with the error-limit break and the final truncation
removed); used only to state what "would otherwise have been produced". -/
def inspectTableAll {σ : Type} [Inhabited σ] (checks : List (Check σ))
    (rowLimit : Nat) (t : Table) : Except PyExc Report :=
  match acquire (schemaRequested checks) t with
  | Except.error f =>
    let errors := tableErrors checks f.exc
    if errors.isEmpty then Except.error f.exc
    else
      match f.headers with
      | Option.none => Except.error PyExc.typeError
      | some headers =>
        Except.ok { valid := errors.isEmpty
                    errorCount := errors.length
                    rowCount := 0
                    headers := headers
                    errors := errors }
  | Except.ok (headers, sample, schema) =>
    let columns := prepareColumns headers schema
    let head := runHeadChecks (filterChecks checks Option.none (some "head")) sample columns
    let bodyChecks := filterChecks checks Option.none (some "body")
    match bodyLoopAll bodyChecks rowLimit head.2 t.rows 0 (fun _ => default) head.1 with
    | Except.error e => Except.error e
    | Except.ok (rowNumber, errors) =>
      Except.ok { valid := errors.isEmpty
                  errorCount := errors.length
                  rowCount := rowNumber
                  headers := headers
                  errors := errors }

/-- Profile metadata attached to one table (`item['extra']`). -/
abbrev Meta := List (String × String)

/-- Per-table entry of the aggregate report: the table report merged with
its positionally paired profile metadata (`report.update(extra)`; profile
metadata keys are source descriptors, disjoint from the report's computed
keys). -/
structure TableEntry where
  report : Report
  extra : Meta
  deriving DecidableEq, Repr

/-- Aggregate report of `Inspector.inspect` (wall-clock `time` key not
modeled). -/
structure AggReport where
  valid : Bool
  tableCount : Nat
  tables : List TableEntry
  deriving DecidableEq, Repr

/-- Dataset truncation of `inspect`: `enumerate(dataset, start=1)` with a
`count >= table_limit` break placed after the append, so the item that
reaches the limit is still taken. -/
def truncateTables {α : Type} (tableLimit : Nat) : List α → List α
  | [] => []
  | x :: xs => x :: (if tableLimit ≤ 1 then [] else truncateTables (tableLimit - 1) xs)

/-- Sequential collection with fail-fast semantics, as the join loop's
`task.get()` re-raise behaves: the first exceptional outcome propagates. -/
def mapExcept {α β ε : Type} (f : α → Except ε β) : List α → Except ε (List β)
  | [] => Except.ok []
  | a :: as =>
    match f a with
    | Except.error e => Except.error e
    | Except.ok b =>
      match mapExcept f as with
      | Except.error e => Except.error e
      | Except.ok bs => Except.ok (b :: bs)

/-- Fan-out: one task per selected table; `sched` is the order in which the
pool's workers complete, and each completed future records its task index
with its outcome.  An index outside the task list never occurs for a
genuine schedule. -/
def poolRun {σ : Type} [Inhabited σ] (checks : List (Check σ))
    (rowLimit errorLimit : Nat) (items : List (Table × Meta)) (sched : List Nat) :
    List (Nat × Except PyExc Report) :=
  sched.map fun i =>
    (i, match items[i]? with
        | some it => inspectTable checks rowLimit errorLimit it.1
        | Option.none => Except.error PyExc.futureMissing)

/-- One `task.get()` of the join loop: read the future whose task index is
`p.1`, re-raise its exception or pair its report with the positionally
zipped metadata `p.2.2`. -/
def joinStep (completed : List (Nat × Except PyExc Report))
    (p : Nat × (Table × Meta)) : Except PyExc TableEntry :=
  match completed.lookup p.1 with
  | some outcome =>
    (match outcome with
     | Except.error e => Except.error e
     | Except.ok rep => Except.ok (⟨rep, p.2.2⟩ : TableEntry))
  | Option.none => Except.error PyExc.futureMissing

/-- Fan-in, the `for task, extra in zip(tasks, extras)` loop: tasks are
read back in creation order (task `i` for table `i`), each `task.get()`
returns that future's outcome or re-raises its exception, and the report is
paired with the positionally zipped metadata. -/
def joinTasks (completed : List (Nat × Except PyExc Report))
    (items : List (Table × Meta)) : Except PyExc (List TableEntry) :=
  mapExcept (joinStep completed) (enum1 0 items)

/-- Sequential reference collection: inspect each selected table in the
original listing order and pair its report with its metadata; the
comparison point for the schedule-independence statement. -/
def collectTables {σ : Type} [Inhabited σ] (checks : List (Check σ))
    (rowLimit errorLimit : Nat) (items : List (Table × Meta)) :
    Except PyExc (List TableEntry) :=
  mapExcept
    (fun it =>
      match inspectTable checks rowLimit errorLimit it.1 with
      | Except.error e => Except.error e
      | Except.ok rep => Except.ok (⟨rep, it.2⟩ : TableEntry))
    items

/-- Translation of `Inspector.inspect` over an already expanded dataset
(the profile's `(table, extra)` sequence), parameterized by the pool's
completion schedule: truncate to the table limit, fan out one task per
table, join positionally, and compose the aggregate report with
`valid = all(report['valid'])` and `table-count = len(tables)`. -/
def inspectSched {σ : Type} [Inhabited σ] (checks : List (Check σ))
    (tableLimit rowLimit errorLimit : Nat) (dataset : List (Table × Meta))
    (sched : List Nat) : Except PyExc AggReport :=
  let items := truncateTables tableLimit dataset
  match joinTasks (poolRun checks rowLimit errorLimit items sched) items with
  | Except.error e => Except.error e
  | Except.ok tables =>
    Except.ok { valid := tables.all fun en => en.report.valid
                tableCount := items.length
                tables := tables }

/-! Concrete fixtures used by the closed evaluations and the witnesses. -/

/-- Well-behaved one-column table with two data rows at stream positions 1
and 2. -/
def fTable1 : Table :=
  { headers := ["h"], rows := [(1, ["a"]), (2, ["b"])] }

/-- Table whose `stream.open()` raises; `headers` is still unassigned
(`None`) when the `except` branch runs. -/
def tOpenFail : Table :=
  { openExc := some (PyExc.raised 7), headers := ["h"] }

/-- Table whose `stream.sample` access raises, after `headers` was already
assigned. -/
def tSampleFail : Table :=
  { headers := ["h"], sampleExc := some (PyExc.raised 8) }

/-- Table-context check that reports one error for any caught exception. -/
def reportCheck : Check Unit :=
  { code := "source-error", type := "structure", context := "table", requires := []
    func := CheckFunc.table fun _ => [{ message := "open failed" }] }

/-- Table-context check that stays silent (produces no error records). -/
def silentCheck : Check Unit :=
  { code := "quiet-error", type := "structure", context := "table", requires := []
    func := CheckFunc.table fun _ => [] }

/-- Body-context check that reports one error per row and keeps the cell
list intact. -/
def noisyBody : Check Unit :=
  { code := "noisy", type := "structure", context := "body", requires := []
    func := CheckFunc.body fun cells st => ([{ message := "bad row" }], cells, st) }

/-- Body-context check that consumes (empties) the cell list without
reporting anything. -/
def eraseBody : Check Unit :=
  { code := "eraser", type := "structure", context := "body", requires := []
    func := CheckFunc.body fun _ st => ([], [], st) }

/-- Three-table dataset in which the middle table's stream fails to open. -/
def tablesC1 : List (Table × Meta) :=
  [(fTable1, []), (tOpenFail, []), (fTable1, [])]

/-- Constant empty per-check state map over the unit state type. -/
def stsUnit : String → Unit := fun _ => ()

/-- Single-cell list for the check-loop witnesses. -/
def cellsW : List Cell := [{ rowNumber := 1, colNumber := 1, value := some "a" }]

/-- Head-context check with no dependencies. -/
def checkA : Check Unit :=
  { code := "check-a", type := "structure", context := "head", requires := []
    func := CheckFunc.head fun cols _ => ([], cols) }

/-- Body-context check that requires `check-a` before it. -/
def checkB : Check Unit :=
  { code := "check-b", type := "structure", context := "body", requires := ["check-a"]
    func := CheckFunc.body fun cells st => ([], cells, st) }

/-- Two-check registry in valid dependency order. -/
def regW : List (Check Unit) := [checkA, checkB]

/-- Cell list built from no columns and the single raw value
`"_FILLVALUE"`: the value key is present and carries the string. -/
def cellsF : List Cell :=
  [{ rowNumber := 1, colNumber := 1, value := some "_FILLVALUE" }]

/-- Two-table dataset with distinct per-table metadata. -/
def datasetW : List (Table × Meta) :=
  [(fTable1, [("source", "a.csv")]), (fTable1, [("source", "b.csv")])]

/-- Unlimited-run report for `fTable1` under the `noisy` body check: one
error per row, untruncated. -/
def repAllW : Report :=
  { valid := false, errorCount := 2, rowCount := 2, headers := ["h"]
    errors := [{ message := "bad row", row := some ["a"], code := "noisy" },
               { message := "bad row", row := some ["b"], code := "noisy" }] }

/-! Helper lemmas. -/

/-- Breaking out of the per-row check loop on an empty cell list: no check
is invoked, no error is recorded, the state map is untouched. -/
theorem runRowChecks_nil_cells {σ : Type} (bodyChecks : List (Check σ))
    (sts : String → σ) (d : List String) :
    runRowChecks bodyChecks ([] : List Cell) sts d = ([], [], sts) := by
  cases bodyChecks <;> simp [runRowChecks]

/-- C10: if stream acquisition fails and the registered `table`-context
checks collectively produce no error records for the exception, the
original exception is re-raised to the caller — recovery depends on an
error record being produced, not merely on a table-context check being
registered. -/
theorem c10_reraise_when_no_errors {σ : Type} [Inhabited σ]
    (checks : List (Check σ)) (rowLimit errorLimit : Nat) (t : Table)
    (f : FatalInfo) (hacq : acquire (schemaRequested checks) t = Except.error f)
    (hempty : tableErrors checks f.exc = []) :
    inspectTable checks rowLimit errorLimit t = Except.error f.exc := by
  simp [inspectTable, hacq, hempty]

/-- Witness for C10: a failing open with one registered but silent
table-context check re-raises the open error. -/
theorem c10_witness :
    acquire (schemaRequested [silentCheck]) tOpenFail
      = Except.error ⟨PyExc.raised 7, Option.none, Option.none⟩
    ∧ tableErrors [silentCheck] (PyExc.raised 7) = []
    ∧ inspectTable [silentCheck] 1000 1000 tOpenFail = Except.error (PyExc.raised 7) :=
  ⟨rfl, rfl,
    c10_reraise_when_no_errors [silentCheck] 1000 1000 tOpenFail
      ⟨PyExc.raised 7, Option.none, Option.none⟩ rfl rfl⟩

/-- C8: during the body phase no body-context check is ever invoked on an
empty cell list — on empty cells the loop breaks before invoking anything,
recording no error and touching no state — and once a prefix of the check
sequence has emptied the cell list, appending further checks changes
nothing about the row's outcome. -/
theorem c8_empty_cells_skip {σ : Type} (pre post : List (Check σ))
    (cells : List Cell) (sts : String → σ) (d : List String)
    (h : (runRowChecks pre cells sts d).2.1 = []) :
    (∀ (checks2 : List (Check σ)) (sts2 : String → σ),
      runRowChecks checks2 ([] : List Cell) sts2 d = ([], [], sts2))
    ∧ runRowChecks (pre ++ post) cells sts d = runRowChecks pre cells sts d := by
  refine ⟨fun checks2 sts2 => runRowChecks_nil_cells checks2 sts2 d, ?_⟩
  induction pre generalizing cells sts with
  | nil =>
    simp only [runRowChecks] at h ⊢
    subst h
    exact runRowChecks_nil_cells post sts d
  | cons c pre ih =>
    by_cases hemp : cells.isEmpty
    · simp [runRowChecks, hemp]
    · simp only [List.cons_append, runRowChecks, hemp, if_neg, Bool.false_eq_true,
        not_false_eq_true, reduceIte] at h ⊢
      rw [show pre.append post = pre ++ post from rfl, ih _ _ h]

/-- Witness for C8: a check that empties the cell list makes a subsequent
error-producing check contribute nothing. -/
theorem c8_witness :
    (runRowChecks [eraseBody] cellsW stsUnit []).2.1 = []
    ∧ runRowChecks ([eraseBody] ++ [noisyBody]) cellsW stsUnit []
        = runRowChecks [eraseBody] cellsW stsUnit [] :=
  ⟨rfl, (c8_empty_cells_skip [eraseBody] [noisyBody] cellsW stsUnit [] rfl).2⟩

/-- C4: under a custom selection mapping, a check whose code is unlisted is
included exactly when no explicit `true` occurs among the mapping's values;
the empty mapping selects the whole registry; and a listed code is included
exactly when it is mapped to `true`. -/
theorem c4_selection_default {σ : Type} (registry : List (Check σ))
    (cfg : List (String × Bool)) (c : Check σ) (hc : c ∈ registry) :
    (cfg.lookup c.code = Option.none →
      (c ∈ selectChecks registry (ChecksConfig.custom cfg)
        ↔ (cfg.any fun p => p.2) = false))
    ∧ (∀ b : Bool, cfg.lookup c.code = some b →
      (c ∈ selectChecks registry (ChecksConfig.custom cfg) ↔ b = true))
    ∧ selectChecks registry (ChecksConfig.custom []) = registry := by
  refine ⟨?_, ?_, ?_⟩
  · intro hl
    simp [selectChecks, List.mem_filter, hc, hl]
  · intro b hl
    simp [selectChecks, List.mem_filter, hc, hl]
  · simp [selectChecks]

/-- Witness for C4 at a concrete registry and mapping: with an explicit
`true` present, the unlisted check is excluded, the `true`-mapped check is
included; and the empty mapping keeps everything. -/
theorem c4_witness :
    reportCheck ∈ [reportCheck, silentCheck]
    ∧ (([("quiet-error", true)] : List (String × Bool)).lookup reportCheck.code
        = Option.none →
      (reportCheck ∈ selectChecks [reportCheck, silentCheck]
          (ChecksConfig.custom [("quiet-error", true)])
        ↔ (([("quiet-error", true)] : List (String × Bool)).any fun p => p.2) = false)) :=
  ⟨List.mem_cons_self .., (c4_selection_default [reportCheck, silentCheck]
      [("quiet-error", true)] reportCheck (List.mem_cons_self ..)).1⟩

/-- Unfolding equation for the "Ensure requires" walk at a cons cell. -/
theorem checkRequires_cons {σ : Type} (c0 : Check σ) (cs : List (Check σ))
    (codes : List String) :
    checkRequires (c0 :: cs) codes =
      if (c0.requires.all fun r => codes.contains r) = true
      then checkRequires cs (codes ++ [c0.code])
      else Except.error (GtExc.dependencyError c0.code) := rfl

/-- Characterization of the "Ensure requires" walk: it succeeds exactly
when every check's `requires` is covered by the initially known codes plus
the codes of the checks strictly before it. -/
theorem checkRequires_ok_iff {σ : Type} :
    ∀ (l : List (Check σ)) (codes : List String),
    checkRequires l codes = Except.ok () ↔
      ∀ i (h : i < l.length), ∀ r ∈ (l.get ⟨i, h⟩).requires,
        r ∈ codes ∨ r ∈ (l.take i).map fun ch => ch.code := by
  intro l
  induction l with
  | nil =>
    intro codes
    simp [checkRequires]
  | cons c0 cs ih =>
    intro codes
    by_cases hall : ∀ x ∈ c0.requires, x ∈ codes
    · have hallb : (c0.requires.all fun r => codes.contains r) = true := by simpa using hall
      rw [checkRequires_cons, if_pos hallb]
      rw [ih (codes ++ [c0.code])]
      constructor
      · intro h1 i hi r hr
        cases i with
        | zero =>
          left
          exact hall r (by simpa using hr)
        | succ j =>
          have hj : j < cs.length := by simpa using hi
          rcases h1 j hj r (by simpa using hr) with h2 | h2
          · rcases List.mem_append.mp h2 with h3 | h3
            · exact Or.inl h3
            · right
              simp only [List.take_succ_cons, List.map_cons, List.mem_cons]
              exact Or.inl (List.mem_singleton.mp h3)
          · right
            simp only [List.take_succ_cons, List.map_cons, List.mem_cons]
            exact Or.inr h2
      · intro h1 j hj r hr
        rcases h1 (j + 1) (by simpa using hj) r (by simpa using hr) with h2 | h2
        · exact Or.inl (List.mem_append.mpr (Or.inl h2))
        · simp only [List.take_succ_cons, List.map_cons, List.mem_cons] at h2
          rcases h2 with h3 | h3
          · exact Or.inl (List.mem_append.mpr (Or.inr (by simp [h3])))
          · exact Or.inr h3
    · have hallb : ¬ (c0.requires.all fun r => codes.contains r) = true := by simpa using hall
      rw [checkRequires_cons, if_neg hallb]
      constructor
      · intro hok
        exact absurd hok (by simp)
      · intro h1
        exfalso
        apply hall
        intro r hmem
        rcases h1 0 (by simp) r (by simpa using hmem) with h2 | h2
        · exact h2
        · simp at h2

/-- Shape of a failed "Ensure requires" walk: the raised configuration
error names the code of some selected check. -/
theorem checkRequires_error_shape {σ : Type} :
    ∀ (l : List (Check σ)) (codes : List String),
    checkRequires l codes = Except.ok ()
    ∨ ∃ c, c ∈ l ∧ checkRequires l codes = Except.error (GtExc.dependencyError c.code) := by
  intro l
  induction l with
  | nil => intro codes; left; rfl
  | cons c0 cs ih =>
    intro codes
    by_cases hall : ∀ x ∈ c0.requires, x ∈ codes
    · have hallb : (c0.requires.all fun r => codes.contains r) = true := by simpa using hall
      rcases ih (codes ++ [c0.code]) with h | ⟨c, hc, h⟩
      · left
        rw [checkRequires_cons, if_pos hallb]
        exact h
      · right
        refine ⟨c, List.mem_cons_of_mem _ hc, ?_⟩
        rw [checkRequires_cons, if_pos hallb]
        exact h
    · have hallb : ¬ (c0.requires.all fun r => codes.contains r) = true := by simpa using hall
      right
      exact ⟨c0, List.mem_cons_self .., by rw [checkRequires_cons, if_neg hallb]⟩

/-- C6: check preparation succeeds exactly when every selected check's
`requires` is a subset of the codes of the checks strictly before it in the
resolved order; on success the resolved list is the selected list; on
violation preparation fails at registry-build time naming a selected
check. -/
theorem c6_requires_order {σ : Type} (registry : List (Check σ)) (config : ChecksConfig) :
    (prepareChecks registry config = Except.ok (selectChecks registry config)
      ↔ ∀ i (h : i < (selectChecks registry config).length),
          ∀ r ∈ ((selectChecks registry config).get ⟨i, h⟩).requires,
            r ∈ ((selectChecks registry config).take i).map fun ch => ch.code)
    ∧ (∀ res, prepareChecks registry config = Except.ok res →
        res = selectChecks registry config)
    ∧ ((¬ ∀ i (h : i < (selectChecks registry config).length),
          ∀ r ∈ ((selectChecks registry config).get ⟨i, h⟩).requires,
            r ∈ ((selectChecks registry config).take i).map fun ch => ch.code) →
        ∃ c, c ∈ selectChecks registry config ∧
          prepareChecks registry config = Except.error (GtExc.dependencyError c.code)) := by
  have hiff := checkRequires_ok_iff (selectChecks registry config) ([] : List String)
  simp only [List.not_mem_nil, false_or] at hiff
  refine ⟨⟨?_, ?_⟩, ?_, ?_⟩
  · intro hok
    apply hiff.mp
    cases hcr : checkRequires (selectChecks registry config) ([] : List String) with
    | ok u => cases u; rfl
    | error e => simp [prepareChecks, hcr] at hok
  · intro hsub
    have hok := hiff.mpr hsub
    simp [prepareChecks, hok]
  · intro res hres
    cases hcr : checkRequires (selectChecks registry config) ([] : List String) with
    | ok u =>
      simp [prepareChecks, hcr] at hres
      exact hres.symm
    | error e => simp [prepareChecks, hcr] at hres
  · intro hnot
    rcases checkRequires_error_shape (selectChecks registry config) ([] : List String)
      with hok | ⟨c, hc, herr⟩
    · exact absurd (hiff.mp hok) hnot
    · exact ⟨c, hc, by simp [prepareChecks, herr]⟩

/-- Witness for C6: a registry whose second check requires the first is
accepted, via the dependency-order characterization. -/
theorem c6_witness :
    prepareChecks regW ChecksConfig.all = Except.ok (selectChecks regW ChecksConfig.all) :=
  (c6_requires_order regW ChecksConfig.all).1.mpr (by decide)

/-- C1 evaluated at the failing input: inspecting three tables where the
middle table's `stream.open()` raises and a `table`-context check is
registered that reports one error.  The claim (and the spec) say the call
returns an aggregate report with table 2 invalid; the code instead falls
through to "Prepare columns" with `headers` still `None`, so
`[None] * len(headers)` raises a `TypeError` that propagates out of
`inspect` — no report is produced at all. -/
theorem c1_open_failure_crashes :
    inspectSched [reportCheck] 10 1000 1000 tablesC1 [0, 1, 2]
      = Except.error PyExc.typeError := rfl

/-- Counterexample to C2 as stated: with `row_limit = 2` and a table whose
stream yields rows at positions 1 and 2, the loop variable is rebound to 2
before the limit test breaks, so the report's `row-count` equals 2 — it is
not strictly less than the limit as the claim requires. -/
theorem c2_counterexample :
    inspectTable ([] : List (Check Unit)) 2 1000 fTable1
      = Except.ok { valid := true, errorCount := 0, rowCount := 2,
                    headers := ["h"], errors := [] } := rfl

/-- Counterexample to C3 as stated: with one header and two schema fields,
the second column carries a `field` key but no `header` key, and the body
loop's unconditional `column['header']` read raises a `KeyError` — cell
construction does fail for a column model built from more schema fields
than headers. -/
theorem c3_counterexample :
    buildCells (prepareColumns ["h1"] (some [⟨"f1"⟩, ⟨"f2"⟩])) 1 ["a", "b"]
      = Except.error (PyExc.keyError "header") := rfl

/-- Counterexample to C9 as stated: a source-supplied header whose
characters are `"_FILLVALUE"` is a distinct object from the module
sentinel, so the identity test `header is not _FILLVALUE` keeps it — the
column descriptor carries the header key instead of omitting it. -/
theorem c9_counterexample :
    prepareColumns ["_FILLVALUE"] Option.none
      = [{ number := 1, header := some "_FILLVALUE", field := some Option.none }] := rfl

/-- Length of a `zip_longest`: the longer side wins. -/
theorem zipLongest_length {α β : Type} :
    ∀ (as : List α) (bs : List β),
    (zipLongest as bs).length = max as.length bs.length := by
  intro as
  induction as with
  | nil => intro bs; simp [zipLongest]
  | cons a as ih =>
    intro bs
    cases bs with
    | nil => simp [zipLongest, ih]
    | cons b bs =>
      simp only [zipLongest, List.length_cons, ih]
      omega

/-- Positional characterization of `zip_longest`: slot `i` pairs the padded
lookups of the two sides. -/
theorem zipLongest_getElem? {α β : Type} :
    ∀ (as : List α) (bs : List β) (i : Nat),
    (zipLongest as bs)[i]? =
      if i < max as.length bs.length then some (padGet as i, padGet bs i) else none := by
  intro as
  induction as with
  | nil =>
    intro bs i
    simp only [zipLongest, List.getElem?_map]
    by_cases h : i < bs.length
    · rw [List.getElem?_eq_getElem h]
      simp [padGet, h, List.getElem?_eq_getElem h]
    · rw [List.getElem?_eq_none (by omega)]
      simp [padGet, h, List.getElem?_eq_none (by omega : bs.length ≤ i)]
  | cons a as ih =>
    intro bs i
    cases bs with
    | nil =>
      cases i with
      | zero => simp [zipLongest, padGet]
      | succ j =>
        have e1 : padGet (a :: as) (j + 1) = padGet as j := by simp [padGet]
        have e3 : ∀ k, padGet ([] : List β) k = Padded.fill := by intro k; simp [padGet]
        simp only [zipLongest, List.getElem?_cons_succ, ih [] j, e1, e3, List.length_nil,
          List.length_cons]
        by_cases h : j < as.length
        · rw [if_pos (by omega), if_pos (by omega)]
        · rw [if_neg (by omega), if_neg (by omega)]
    | cons b bs =>
      cases i with
      | zero => simp [zipLongest, padGet]
      | succ j =>
        have e1 : padGet (a :: as) (j + 1) = padGet as j := by simp [padGet]
        have e2 : padGet (b :: bs) (j + 1) = padGet bs j := by simp [padGet]
        simp only [zipLongest, List.getElem?_cons_succ, ih bs j, e1, e2, List.length_cons]
        by_cases h : j < max as.length bs.length
        · rw [if_pos h, if_pos (by omega)]
        · rw [if_neg h, if_neg (by omega)]

/-- Every first component of a `zip_longest` slot is either the padding
sentinel or an element of the left list. -/
theorem zipLongest_fst_mem {α β : Type} :
    ∀ (as : List α) (bs : List β) (pr : Padded α × Padded β), pr ∈ zipLongest as bs →
    pr.1 = Padded.fill ∨ ∃ a ∈ as, pr.1 = Padded.val a := by
  intro as
  induction as with
  | nil =>
    intro bs pr hpr
    simp only [zipLongest, List.mem_map] at hpr
    obtain ⟨b, _, rfl⟩ := hpr
    exact Or.inl rfl
  | cons a as ih =>
    intro bs pr hpr
    cases bs with
    | nil =>
      rcases List.mem_cons.mp hpr with rfl | htail
      · exact Or.inr ⟨a, List.mem_cons_self .., rfl⟩
      · rcases ih [] pr htail with h | ⟨a2, ha2, h⟩
        · exact Or.inl h
        · exact Or.inr ⟨a2, List.mem_cons_of_mem _ ha2, h⟩
    | cons b bs =>
      rcases List.mem_cons.mp hpr with rfl | htail
      · exact Or.inr ⟨a, List.mem_cons_self .., rfl⟩
      · rcases ih bs pr htail with h | ⟨a2, ha2, h⟩
        · exact Or.inl h
        · exact Or.inr ⟨a2, List.mem_cons_of_mem _ ha2, h⟩

/-- With equal-length sides, `zip_longest` never pads. -/
theorem zipLongest_both_val {α β : Type} :
    ∀ (as : List α) (bs : List β), as.length = bs.length →
    ∀ pr ∈ zipLongest as bs, ∃ a b, pr = (Padded.val a, Padded.val b) := by
  intro as
  induction as with
  | nil =>
    intro bs hlen pr hpr
    cases bs with
    | nil => simp [zipLongest] at hpr
    | cons b bs => simp at hlen
  | cons a as ih =>
    intro bs hlen pr hpr
    cases bs with
    | nil => simp at hlen
    | cons b bs =>
      rcases List.mem_cons.mp hpr with rfl | htail
      · exact ⟨a, b, rfl⟩
      · exact ih bs (by simpa using hlen) pr htail

/-- Second components of `enumerate` elements are elements of the list. -/
theorem enum1_mem_snd {α : Type} :
    ∀ (l : List α) (s n : Nat) (x : α), (n, x) ∈ enum1 s l → x ∈ l := by
  intro l
  induction l with
  | nil => intro s n x h; simp [enum1] at h
  | cons a as ih =>
    intro s n x h
    rcases List.mem_cons.mp h with h0 | htail
    · injection h0 with h1 h2
      subst h2
      exact List.mem_cons_self ..
    · exact List.mem_cons_of_mem _ (ih (s + 1) n x htail)

/-- Field-level description of a successfully built cell: `row-number` and
`col-number` are the loop counters; the `value` key mirrors the value slot;
the `header`/`field` keys are both absent for a padded column slot and both
copied for a real column (which then necessarily carried both keys). -/
theorem buildCell_ok (rn n : Nat) (pc : Padded Column) (pv : Padded String)
    (cell : Cell) (h : buildCell rn n pc pv = Except.ok cell) :
    cell.rowNumber = rn ∧ cell.colNumber = n
    ∧ cell.value = padValue pv
    ∧ ((pc = Padded.fill ∧ cell.header = Option.none ∧ cell.field = Option.none)
      ∨ (∃ col hh f, pc = Padded.val col ∧ col.header = some hh ∧ col.field = some f
          ∧ cell.header = some hh ∧ cell.field = some f)) := by
  cases pc with
  | fill =>
    cases pv with
    | fill =>
      simp only [buildCell] at h
      obtain rfl : _ = cell := by simpa using h
      simp [padValue]
    | val v =>
      simp only [buildCell] at h
      obtain rfl : _ = cell := by simpa using h
      simp [padValue]
  | val col =>
    cases hh : col.header with
    | none => simp [buildCell, hh] at h
    | some s =>
      cases hf : col.field with
      | none => simp [buildCell, hh, hf] at h
      | some f =>
        cases pv with
        | fill =>
          simp only [buildCell, hh, hf] at h
          obtain rfl : _ = cell := by simpa using h
          exact ⟨rfl, rfl, rfl, Or.inr ⟨col, s, f, rfl, hh, hf, rfl, rfl⟩⟩
        | val v =>
          simp only [buildCell, hh, hf] at h
          obtain rfl : _ = cell := by simpa using h
          exact ⟨rfl, rfl, rfl, Or.inr ⟨col, s, f, rfl, hh, hf, rfl, rfl⟩⟩

/-- Structural description of a successful cell-construction pass: one cell
per zipped slot, with the fields of `buildCell_ok` at matching offsets. -/
theorem buildCellsGo_ok_props :
    ∀ (pairs : List (Padded Column × Padded String)) (rn n : Nat) (cells : List Cell),
    buildCellsGo rn n pairs = Except.ok cells →
    cells.length = pairs.length ∧
    ∀ i pr, pairs[i]? = some pr → ∃ c, cells[i]? = some c
      ∧ c.rowNumber = rn ∧ c.colNumber = n + i
      ∧ c.value = padValue pr.2
      ∧ ((pr.1 = Padded.fill ∧ c.header = Option.none ∧ c.field = Option.none)
        ∨ (∃ col hh f, pr.1 = Padded.val col ∧ col.header = some hh ∧ col.field = some f
            ∧ c.header = some hh ∧ c.field = some f)) := by
  intro pairs
  induction pairs with
  | nil =>
    intro rn n cells h
    obtain rfl : ([] : List Cell) = cells := by simpa [buildCellsGo] using h
    exact ⟨rfl, by intro i pr hpr; simp at hpr⟩
  | cons p rest ih =>
    intro rn n cells h
    obtain ⟨pc, pv⟩ := p
    simp only [buildCellsGo] at h
    cases hbc : buildCell rn n pc pv with
    | error e => rw [hbc] at h; exact absurd h (by simp)
    | ok cell =>
      rw [hbc] at h
      cases hr : buildCellsGo rn (n + 1) rest with
      | error e => rw [hr] at h; exact absurd h (by simp)
      | ok cells2 =>
        rw [hr] at h
        obtain rfl : cell :: cells2 = cells := by simpa using h
        obtain ⟨hlen, hprops⟩ := ih rn (n + 1) cells2 hr
        refine ⟨by simp [hlen], ?_⟩
        intro i pr hpr
        cases i with
        | zero =>
          obtain rfl : (pc, pv) = pr := by simpa using hpr
          obtain ⟨h1, h2, h3, h4⟩ := buildCell_ok rn n pc pv cell hbc
          exact ⟨cell, by simp, h1, by omega, h3, h4⟩
        | succ j =>
          obtain ⟨c, hc, h1, h2, h3, h4⟩ := hprops j pr (by simpa using hpr)
          exact ⟨c, by simpa using hc, h1, by omega, h3, h4⟩

/-- Cell construction succeeds whenever every real column slot carries both
the `header` and the `field` key. -/
theorem buildCellsGo_ok_of_complete :
    ∀ (pairs : List (Padded Column × Padded String)) (rn n : Nat),
    (∀ pr ∈ pairs, ∀ col : Column, pr.1 = Padded.val col →
      col.header.isSome ∧ col.field.isSome) →
    ∃ cells, buildCellsGo rn n pairs = Except.ok cells := by
  intro pairs
  induction pairs with
  | nil => intro rn n _; exact ⟨[], rfl⟩
  | cons p rest ih =>
    intro rn n hcomp
    obtain ⟨pc, pv⟩ := p
    have hcell : ∃ cell, buildCell rn n pc pv = Except.ok cell := by
      cases pc with
      | fill => cases pv <;> exact ⟨_, rfl⟩
      | val col =>
        obtain ⟨hh, hf⟩ := hcomp (Padded.val col, pv) (List.mem_cons_self ..) col rfl
        obtain ⟨s, hs⟩ := Option.isSome_iff_exists.mp hh
        obtain ⟨f, hfs⟩ := Option.isSome_iff_exists.mp hf
        cases hb : buildCell rn n (Padded.val col) pv with
        | ok cell => exact ⟨cell, rfl⟩
        | error e =>
          exfalso
          cases pv <;> simp [buildCell, hs, hfs] at hb
    obtain ⟨cell, hcell⟩ := hcell
    obtain ⟨cells2, hrest⟩ := ih rn (n + 1) fun pr hpr => hcomp pr (List.mem_cons_of_mem _ hpr)
    exact ⟨cell :: cells2, by simp [buildCellsGo, hcell, hrest]⟩

/-- C3 amended: cell construction succeeds with the max-length/absent-slot
shape whenever every column in the column model carries both its `header`
and its `field` key — as is the case when no schema is in play (`fields`
is `[None] * len(headers)`); when some column lacks a key (for example a
column model built from more schema fields than headers) construction
instead raises a `KeyError`, per `c3_counterexample`. -/
theorem c3_alignment_amended (cols : List Column) (pos : Nat) (row : List String)
    (hcomplete : ∀ c ∈ cols, c.header.isSome ∧ c.field.isSome) :
    (∃ cells, buildCells cols pos row = Except.ok cells
      ∧ cells.length = max cols.length row.length
      ∧ ∀ i c, cells[i]? = some c →
          c.rowNumber = pos ∧ c.colNumber = i + 1
          ∧ (c.value.isSome ↔ i < row.length)
          ∧ (c.header.isSome ↔ i < cols.length)
          ∧ (c.field.isSome ↔ i < cols.length))
    ∧ (∀ headers : List String,
        ∀ c ∈ prepareColumns headers Option.none, c.header.isSome ∧ c.field.isSome) := by
  constructor
  · have hpairs : ∀ pr ∈ zipLongest cols row, ∀ col : Column, pr.1 = Padded.val col →
        col.header.isSome ∧ col.field.isSome := by
      intro pr hpr col hcol
      rcases zipLongest_fst_mem cols row pr hpr with h | ⟨a, ha, h⟩
      · rw [h] at hcol; cases hcol
      · rw [h] at hcol
        obtain rfl : a = col := by simpa using hcol
        exact hcomplete a ha
    obtain ⟨cells, hcells⟩ := buildCellsGo_ok_of_complete (zipLongest cols row) pos 1 hpairs
    obtain ⟨hlen, hprops⟩ := buildCellsGo_ok_props (zipLongest cols row) pos 1 cells hcells
    refine ⟨cells, hcells, by rw [hlen, zipLongest_length], ?_⟩
    intro i c hc
    have hi : i < cells.length := by
      by_contra hcon
      rw [List.getElem?_eq_none (by omega)] at hc
      cases hc
    have himax : i < max cols.length row.length := by
      rw [hlen, zipLongest_length] at hi
      exact hi
    have hpr : (zipLongest cols row)[i]? = some (padGet cols i, padGet row i) := by
      rw [zipLongest_getElem?]
      simp [himax]
    obtain ⟨c2, hc2, h1, h2, h3, h4⟩ := hprops i (padGet cols i, padGet row i) hpr
    obtain rfl : c2 = c := by rw [hc2] at hc; simpa using hc
    refine ⟨h1, by omega, ?_, ?_, ?_⟩
    · by_cases hir : i < row.length
      · rw [show padGet row i = Padded.val (row.get ⟨i, hir⟩) from by
          simp [padGet, List.getElem?_eq_getElem hir]] at h3
        simp [h3, hir, padValue]
      · rw [show padGet row i = Padded.fill from by
          simp [padGet, List.getElem?_eq_none (by omega : row.length ≤ i)]] at h3
        simp [h3, hir, padValue]
    · by_cases hic : i < cols.length
      · rcases h4 with ⟨hfill, _, _⟩ | ⟨col, hh, f, hval, _, _, hch, _⟩
        · rw [show padGet cols i = Padded.val (cols.get ⟨i, hic⟩) from by
            simp [padGet, List.getElem?_eq_getElem hic]] at hfill
          cases hfill
        · simp [hch, hic]
      · rcases h4 with ⟨_, hch, _⟩ | ⟨col, hh, f, hval, _, _, hch, _⟩
        · simp [hch, hic]
        · rw [show padGet cols i = Padded.fill from by
            simp [padGet, List.getElem?_eq_none (by omega : cols.length ≤ i)]] at hval
          cases hval
    · by_cases hic : i < cols.length
      · rcases h4 with ⟨hfill, _, _⟩ | ⟨col, hh, f, hval, _, _, _, hcf⟩
        · rw [show padGet cols i = Padded.val (cols.get ⟨i, hic⟩) from by
            simp [padGet, List.getElem?_eq_getElem hic]] at hfill
          cases hfill
        · simp [hcf, hic]
      · rcases h4 with ⟨_, _, hcf⟩ | ⟨col, hh, f, hval, _, _, _, hcf⟩
        · simp [hcf, hic]
        · rw [show padGet cols i = Padded.fill from by
            simp [padGet, List.getElem?_eq_none (by omega : cols.length ≤ i)]] at hval
          cases hval
  · intro headers c hc
    simp only [prepareColumns, List.mem_map] at hc
    obtain ⟨⟨n, pr⟩, hmem, rfl⟩ := hc
    have hzl := enum1_mem_snd _ 1 n pr hmem
    obtain ⟨a, b, rfl⟩ := zipLongest_both_val headers
      (List.replicate headers.length Option.none) (by simp) pr hzl
    simp [mkColumn]

/-- Witness for C3 amended: a schemaless two-column model against a one
value row builds two cells, the second with its value key absent. -/
theorem c3_witness :
    (∀ c ∈ prepareColumns ["h1", "h2"] Option.none, c.header.isSome ∧ c.field.isSome)
    ∧ ((∃ cells, buildCells (prepareColumns ["h1", "h2"] Option.none) 1 ["a"] = Except.ok cells
        ∧ cells.length = max (prepareColumns ["h1", "h2"] Option.none).length ["a"].length
        ∧ ∀ i c, cells[i]? = some c →
            c.rowNumber = 1 ∧ c.colNumber = i + 1
            ∧ (c.value.isSome ↔ i < ["a"].length)
            ∧ (c.header.isSome ↔ i < (prepareColumns ["h1", "h2"] Option.none).length)
            ∧ (c.field.isSome ↔ i < (prepareColumns ["h1", "h2"] Option.none).length))
      ∧ (∀ headers : List String,
          ∀ c ∈ prepareColumns headers Option.none, c.header.isSome ∧ c.field.isSome)) :=
  ⟨by decide,
    c3_alignment_amended (prepareColumns ["h1", "h2"] Option.none) 1 ["a"] (by decide)⟩

/-- Header keys of a column model over equal-length sides: every header
string is carried verbatim into its column descriptor. -/
theorem mkColumns_map_header :
    ∀ (hs : List String) (fs : List (Option Field)) (s : Nat), hs.length = fs.length →
    (((enum1 s (zipLongest hs fs)).map fun p => mkColumn p.1 p.2.1 p.2.2).map
        fun c => c.header) = hs.map some := by
  intro hs
  induction hs with
  | nil =>
    intro fs s hlen
    cases fs with
    | nil => rfl
    | cons f fs => simp at hlen
  | cons h hs ih =>
    intro fs s hlen
    cases fs with
    | nil => simp at hlen
    | cons f fs =>
      simp only [zipLongest, enum1, List.map_cons]
      rw [ih fs (s + 1) (by simpa using hlen)]
      simp [mkColumn]

/-- C9 amended: the padding comparison is object identity against the
module sentinel, so a source-supplied string whose characters are
`"_FILLVALUE"` is retained like any other datum — every header appears
verbatim (wrapped in `some`) in its column descriptor, and every supplied
raw value appears in its cell's `value` key. -/
theorem c9_sentinel_amended :
    (∀ headers : List String,
      ((prepareColumns headers Option.none).map fun c => c.header) = headers.map some)
    ∧ (∀ (cols : List Column) (pos : Nat) (row : List String) (cells : List Cell)
        (i : Nat) (d : String),
        buildCells cols pos row = Except.ok cells → row[i]? = some d →
        ∃ c, cells[i]? = some c ∧ c.value = some d) := by
  constructor
  · intro headers
    simp only [prepareColumns]
    exact mkColumns_map_header headers (List.replicate headers.length Option.none) 1 (by simp)
  · intro cols pos row cells i d hcells hrow
    obtain ⟨hlen, hprops⟩ := buildCellsGo_ok_props (zipLongest cols row) pos 1 cells hcells
    have hir : i < row.length := by
      by_contra hcon
      rw [List.getElem?_eq_none (by omega)] at hrow
      cases hrow
    have hpr : (zipLongest cols row)[i]? = some (padGet cols i, padGet row i) := by
      rw [zipLongest_getElem?, if_pos (by omega)]
    obtain ⟨c, hc, h1, h2, h3, h4⟩ := hprops i (padGet cols i, padGet row i) hpr
    refine ⟨c, hc, ?_⟩
    rw [h3, show padGet row i = Padded.val d from by simp [padGet, hrow]]
    rfl

/-- Witness for C9 amended: the raw value `"_FILLVALUE"` from a row ends up
stored in its cell's `value` key. -/
theorem c9_witness :
    buildCells [] 1 ["_FILLVALUE"] = Except.ok cellsF
    ∧ (["_FILLVALUE"] : List String)[0]? = some "_FILLVALUE"
    ∧ ∃ c, cellsF[0]? = some c ∧ c.value = some "_FILLVALUE" :=
  ⟨rfl, rfl, (c9_sentinel_amended).2 [] 1 ["_FILLVALUE"] cellsF 0 "_FILLVALUE" rfl rfl⟩

/-- Errors collected in the `except` branch all carry `row: None`. -/
theorem tableErrors_row_none {σ : Type} (checks : List (Check σ)) (e : PyExc) :
    ∀ er ∈ tableErrors checks e, er.row = Option.none := by
  intro er her
  simp only [tableErrors, List.mem_flatMap, List.mem_map] at her
  obtain ⟨c, _, er2, _, rfl⟩ := her
  rfl

/-- Errors produced by the head phase all carry `row: None`. -/
theorem runHeadChecks_row_none {σ : Type} :
    ∀ (hcs : List (Check σ)) (sample : List (List String)) (cols : List Column),
    ∀ e ∈ (runHeadChecks hcs sample cols).1, e.row = Option.none := by
  intro hcs
  induction hcs with
  | nil => intro sample cols e he; simp [runHeadChecks] at he
  | cons c cs ih =>
    intro sample cols e he
    simp only [runHeadChecks, List.mem_append] at he
    rcases he with he | he
    · obtain ⟨er, _, rfl⟩ := List.mem_map.mp he
      rfl
    · exact ih sample _ e he

/-- Errors produced by the per-row check loop are all tagged with that
row's raw data. -/
theorem runRowChecks_row_tag {σ : Type} :
    ∀ (bcs : List (Check σ)) (cells : List Cell) (sts : String → σ) (d : List String),
    ∀ e ∈ (runRowChecks bcs cells sts d).1, e.row = some d := by
  intro bcs
  induction bcs with
  | nil => intro cells sts d e he; simp [runRowChecks] at he
  | cons c cs ih =>
    intro cells sts d e he
    by_cases hemp : cells.isEmpty
    · simp [runRowChecks, hemp] at he
    · simp only [runRowChecks, hemp, Bool.false_eq_true, not_false_eq_true, reduceIte,
        List.mem_append] at he
      rcases he with he | he
      · obtain ⟨er, _, rfl⟩ := List.mem_map.mp he
        rfl
      · exact ih _ _ d e he

/-- Provenance of the errors accumulated by the body loop: each one was
already present on entry, or was produced while processing a yielded row
whose position is below the row limit and is tagged with that row's
data. -/
theorem bodyLoop_errors_origin {σ : Type} (bcs : List (Check σ)) (rl el : Nat)
    (cols : List Column) :
    ∀ (rows : List (Nat × List String)) (rn : Nat) (sts : String → σ)
      (errs : List Error) (res : Nat × List Error),
    bodyLoop bcs rl el cols rows rn sts errs = Except.ok res →
    ∀ e ∈ res.2, e ∈ errs ∨ ∃ pos row, (pos, row) ∈ rows ∧ pos < rl ∧ e.row = some row := by
  intro rows
  induction rows with
  | nil =>
    intro rn sts errs res h e he
    obtain rfl : (rn, errs) = res := by simpa [bodyLoop] using h
    exact Or.inl he
  | cons pr rest ih =>
    intro rn sts errs res h e he
    obtain ⟨pos, row⟩ := pr
    simp only [bodyLoop] at h
    by_cases hlim : rl ≤ pos
    · rw [if_pos hlim] at h
      obtain rfl : (pos, errs) = res := by simpa using h
      exact Or.inl he
    · rw [if_neg hlim] at h
      cases hbc : buildCells cols pos row with
      | error e2 => rw [hbc] at h; exact absurd h (by simp)
      | ok cells =>
        rw [hbc] at h
        dsimp only at h
        by_cases herr : el ≤ (errs ++ (runRowChecks bcs cells sts row).1).length
        · rw [if_pos herr] at h
          obtain rfl : (pos, errs ++ (runRowChecks bcs cells sts row).1) = res := by
            simpa using h
          rcases List.mem_append.mp he with h2 | h2
          · exact Or.inl h2
          · exact Or.inr ⟨pos, row, List.mem_cons_self .., by omega,
              runRowChecks_row_tag bcs cells sts row e h2⟩
        · rw [if_neg herr] at h
          rcases ih pos _ _ res h e he with h2 | ⟨pos2, row2, hmem, hlt, htag⟩
          · rcases List.mem_append.mp h2 with h3 | h3
            · exact Or.inl h3
            · exact Or.inr ⟨pos, row, List.mem_cons_self .., by omega,
                runRowChecks_row_tag bcs cells sts row e h3⟩
          · exact Or.inr ⟨pos2, row2, List.mem_cons_of_mem _ hmem, hlt, htag⟩

/-- Bound on the final `row_number` for a stream whose positions are
consecutive from `s`: the loop variable never passes the row limit. -/
theorem bodyLoop_rowCount_le {σ : Type} (bcs : List (Check σ)) (el : Nat)
    (cols : List Column) (N : Nat) :
    ∀ (raw : List (List String)) (s rn : Nat) (sts : String → σ)
      (errs : List Error) (res : Nat × List Error),
    s ≤ N → rn ≤ N →
    bodyLoop bcs N el cols (enum1 s raw) rn sts errs = Except.ok res → res.1 ≤ N := by
  intro raw
  induction raw with
  | nil =>
    intro s rn sts errs res hs hrn h
    obtain rfl : (rn, errs) = res := by simpa [enum1, bodyLoop] using h
    exact hrn
  | cons row raw ih =>
    intro s rn sts errs res hs hrn h
    simp only [enum1, bodyLoop] at h
    by_cases hlim : N ≤ s
    · rw [if_pos hlim] at h
      obtain rfl : (s, errs) = res := by simpa using h
      exact hs
    · rw [if_neg hlim] at h
      cases hbc : buildCells cols s row with
      | error e2 => rw [hbc] at h; exact absurd h (by simp)
      | ok cells =>
        rw [hbc] at h
        dsimp only at h
        by_cases herr : el ≤ (errs ++ (runRowChecks bcs cells sts row).1).length
        · rw [if_pos herr] at h
          obtain rfl : (s, errs ++ (runRowChecks bcs cells sts row).1) = res := by
            simpa using h
          exact hs
        · rw [if_neg herr] at h
          exact ih (s + 1) s _ _ res (by omega) (by omega) h

/-- C2 amended: with row limit `N ≥ 1` and a stream numbering its rows
consecutively from 1, the row that reaches position `N` is not processed —
the loop returns at once, ignoring the row's data and everything after it
and adding no error — every reported error either carries `row: None` or
the data of a row at a position strictly below `N`, and the reported
`row-count` is at most `N` (the loop variable is rebound before the limit
test, so `row-count` equals `N` — rather than being strictly below it —
whenever the stream reaches position `N`). -/
theorem c2_rowlimit_amended {σ : Type} [Inhabited σ] (checks : List (Check σ))
    (N errorLimit : Nat) (t : Table) (raw : List (List String)) (rep : Report)
    (hN : 1 ≤ N) (hrows : t.rows = enum1 1 raw)
    (hok : inspectTable checks N errorLimit t = Except.ok rep) :
    rep.rowCount ≤ N
    ∧ (∀ e ∈ rep.errors, e.row = Option.none
        ∨ ∃ pos row, (pos, row) ∈ t.rows ∧ pos < N ∧ e.row = some row)
    ∧ (∀ (bcs : List (Check σ)) (cols : List Column) (pos : Nat) (row : List String)
        (rest : List (Nat × List String)) (rn : Nat) (sts : String → σ)
        (errs : List Error), N ≤ pos →
        bodyLoop bcs N errorLimit cols ((pos, row) :: rest) rn sts errs
          = Except.ok (pos, errs)) := by
  have hbreak : ∀ (bcs : List (Check σ)) (cols : List Column) (pos : Nat)
      (row : List String) (rest : List (Nat × List String)) (rn : Nat)
      (sts : String → σ) (errs : List Error), N ≤ pos →
      bodyLoop bcs N errorLimit cols ((pos, row) :: rest) rn sts errs
        = Except.ok (pos, errs) := by
    intro bcs cols pos row rest rn sts errs hpos
    simp only [bodyLoop]
    rw [if_pos hpos]
  simp only [inspectTable] at hok
  cases hacq : acquire (schemaRequested checks) t with
  | error f =>
    rw [hacq] at hok
    dsimp only at hok
    by_cases hemp : (tableErrors checks f.exc).isEmpty
    · rw [if_pos hemp] at hok
      exact absurd hok (by simp)
    · rw [if_neg hemp] at hok
      cases hh : f.headers with
      | none => rw [hh] at hok; exact absurd hok (by simp)
      | some hdrs =>
        rw [hh] at hok
        obtain rfl : composeReport errorLimit 0 hdrs (tableErrors checks f.exc) = rep := by
          simpa using hok
        refine ⟨by simp [composeReport], ?_, hbreak⟩
        intro e he
        simp only [composeReport] at he
        exact Or.inl (tableErrors_row_none checks f.exc e (List.take_subset _ _ he))
  | ok acq =>
    rw [hacq] at hok
    obtain ⟨headers, sample, schema⟩ := acq
    dsimp only at hok
    cases hbl : bodyLoop (filterChecks checks Option.none (some "body")) N errorLimit
        (runHeadChecks (filterChecks checks Option.none (some "head")) sample
          (prepareColumns headers schema)).2 t.rows 0 (fun _ => default)
        (runHeadChecks (filterChecks checks Option.none (some "head")) sample
          (prepareColumns headers schema)).1 with
    | error e2 => rw [hbl] at hok; exact absurd hok (by simp)
    | ok res =>
      rw [hbl] at hok
      obtain ⟨rn2, errs2⟩ := res
      obtain rfl : composeReport errorLimit rn2 headers errs2 = rep := by simpa using hok
      rw [hrows] at hbl
      refine ⟨?_, ?_, hbreak⟩
      · have := bodyLoop_rowCount_le (filterChecks checks Option.none (some "body"))
          errorLimit _ N raw 1 0 _ _ (rn2, errs2) hN (by omega) hbl
        simpa [composeReport] using this
      · intro e he
        simp only [composeReport] at he
        have hmem := List.take_subset _ _ he
        rcases bodyLoop_errors_origin _ N errorLimit _ _ 0 _ _ (rn2, errs2) hbl e hmem
          with h2 | ⟨pos, row, hmem2, hlt, htag⟩
        · exact Or.inl (runHeadChecks_row_none _ sample _ e h2)
        · exact Or.inr ⟨pos, row, hrows ▸ hmem2, hlt, htag⟩

/-- Witness for C2 amended: two consecutively numbered rows under row
limit 2 give a report with row-count 2 ≤ 2 and no errors. -/
theorem c2_witness :
    1 ≤ 2
    ∧ fTable1.rows = enum1 1 [["a"], ["b"]]
    ∧ inspectTable ([] : List (Check Unit)) 2 1000 fTable1
        = Except.ok { valid := true, errorCount := 0, rowCount := 2,
                      headers := ["h"], errors := [] }
    ∧ ({ valid := true, errorCount := 0, rowCount := 2,
         headers := ["h"], errors := [] } : Report).rowCount ≤ 2 :=
  ⟨by omega, rfl, rfl,
    (c2_rowlimit_amended ([] : List (Check Unit)) 2 1000 fTable1 [["a"], ["b"]]
      { valid := true, errorCount := 0, rowCount := 2, headers := ["h"], errors := [] }
      (by omega) rfl rfl).1⟩

/-- Monotonicity of the unlimited body loop: the accumulated error list
only grows, so the entry list is a prefix of the final one. -/
theorem bodyLoopAll_monotone {σ : Type} (bcs : List (Check σ)) (rl : Nat)
    (cols : List Column) :
    ∀ (rows : List (Nat × List String)) (rn : Nat) (sts : String → σ)
      (errs : List Error) (res : Nat × List Error),
    bodyLoopAll bcs rl cols rows rn sts errs = Except.ok res → errs <+: res.2 := by
  intro rows
  induction rows with
  | nil =>
    intro rn sts errs res h
    obtain rfl : (rn, errs) = res := by simpa [bodyLoopAll] using h
    exact List.prefix_refl _
  | cons pr rest ih =>
    intro rn sts errs res h
    obtain ⟨pos, row⟩ := pr
    simp only [bodyLoopAll] at h
    by_cases hlim : rl ≤ pos
    · rw [if_pos hlim] at h
      obtain rfl : (pos, errs) = res := by simpa using h
      exact List.prefix_refl _
    · rw [if_neg hlim] at h
      cases hbc : buildCells cols pos row with
      | error e2 => rw [hbc] at h; exact absurd h (by simp)
      | ok cells =>
        rw [hbc] at h
        dsimp only at h
        exact (List.prefix_append errs _).trans (ih pos _ _ res h)

/-- Relation between the limited and the unlimited body loop on the same
inputs: when the unlimited loop completes, the limited loop also completes,
with either the very same error list (the limit never fired) or a prefix of
it that has already reached the limit (the loop stopped at the end of the
row that reached it). -/
theorem bodyLoop_vs_all {σ : Type} (bcs : List (Check σ)) (rl M : Nat)
    (cols : List Column) :
    ∀ (rows : List (Nat × List String)) (rn : Nat) (sts : String → σ)
      (errs : List Error) (resA : Nat × List Error),
    bodyLoopAll bcs rl cols rows rn sts errs = Except.ok resA →
    ∃ resL, bodyLoop bcs rl M cols rows rn sts errs = Except.ok resL
      ∧ (resL.2 = resA.2 ∨ (resL.2 <+: resA.2 ∧ M ≤ resL.2.length)) := by
  intro rows
  induction rows with
  | nil =>
    intro rn sts errs resA h
    obtain rfl : (rn, errs) = resA := by simpa [bodyLoopAll] using h
    exact ⟨(rn, errs), by simp [bodyLoop], Or.inl rfl⟩
  | cons pr rest ih =>
    intro rn sts errs resA h
    obtain ⟨pos, row⟩ := pr
    simp only [bodyLoopAll] at h
    by_cases hlim : rl ≤ pos
    · rw [if_pos hlim] at h
      obtain rfl : (pos, errs) = resA := by simpa using h
      exact ⟨(pos, errs), by simp only [bodyLoop]; rw [if_pos hlim], Or.inl rfl⟩
    · rw [if_neg hlim] at h
      cases hbc : buildCells cols pos row with
      | error e2 => rw [hbc] at h; exact absurd h (by simp)
      | ok cells =>
        rw [hbc] at h
        dsimp only at h
        by_cases hM : M ≤ (errs ++ (runRowChecks bcs cells sts row).1).length
        · refine ⟨(pos, errs ++ (runRowChecks bcs cells sts row).1), ?_, ?_⟩
          · simp only [bodyLoop]
            rw [if_neg hlim, hbc]
            dsimp only
            rw [if_pos hM]
          · exact Or.inr ⟨bodyLoopAll_monotone bcs rl cols rest pos _ _ resA h, hM⟩
        · obtain ⟨resL, hL, hrel⟩ := ih pos _ _ resA h
          refine ⟨resL, ?_, hrel⟩
          simp only [bodyLoop]
          rw [if_neg hlim, hbc]
          dsimp only
          rw [if_neg hM]
          exact hL

/-- C5: with error limit `M`, the reported error list is exactly the first
`M` errors of the run that the unlimited inspection would have produced —
so its length is `min M` of that run's error count: exactly `M` when at
least `M` errors would otherwise have arisen, the full shorter list
otherwise.  Moreover the row loop stops at the end of the first row whose
processing leaves the accumulated error count at `M` or beyond, ignoring
all later rows. -/
theorem c5_error_limit {σ : Type} [Inhabited σ] (checks : List (Check σ))
    (rowLimit M : Nat) (t : Table) (repAll : Report)
    (hall : inspectTableAll checks rowLimit t = Except.ok repAll) :
    (∃ rep, inspectTable checks rowLimit M t = Except.ok rep
      ∧ rep.errors = repAll.errors.take M
      ∧ rep.errors.length = min M repAll.errors.length)
    ∧ (∀ (bcs : List (Check σ)) (cols : List Column) (pos : Nat) (row : List String)
        (rest : List (Nat × List String)) (rn : Nat) (sts : String → σ)
        (errs : List Error) (cells : List Cell), ¬ rowLimit ≤ pos →
        buildCells cols pos row = Except.ok cells →
        M ≤ (errs ++ (runRowChecks bcs cells sts row).1).length →
        bodyLoop bcs rowLimit M cols ((pos, row) :: rest) rn sts errs
          = Except.ok (pos, errs ++ (runRowChecks bcs cells sts row).1)) := by
  constructor
  · simp only [inspectTableAll] at hall
    simp only [inspectTable]
    cases hacq : acquire (schemaRequested checks) t with
    | error f =>
      rw [hacq] at hall
      dsimp only at hall ⊢
      by_cases hemp : (tableErrors checks f.exc).isEmpty
      · rw [if_pos hemp] at hall
        exact absurd hall (by simp)
      · rw [if_neg hemp] at hall ⊢
        cases hh : f.headers with
        | none => rw [hh] at hall; exact absurd hall (by simp)
        | some hdrs =>
          rw [hh] at hall
          obtain rfl : _ = repAll := by simpa using hall
          exact ⟨composeReport M 0 hdrs (tableErrors checks f.exc), rfl,
            by simp [composeReport], by simp [composeReport, List.length_take]⟩
    | ok acq =>
      rw [hacq] at hall
      obtain ⟨headers, sample, schema⟩ := acq
      dsimp only at hall ⊢
      cases hbl : bodyLoopAll (filterChecks checks Option.none (some "body")) rowLimit
          (runHeadChecks (filterChecks checks Option.none (some "head")) sample
            (prepareColumns headers schema)).2 t.rows 0 (fun _ => default)
          (runHeadChecks (filterChecks checks Option.none (some "head")) sample
            (prepareColumns headers schema)).1 with
      | error e2 => rw [hbl] at hall; exact absurd hall (by simp)
      | ok resA =>
        rw [hbl] at hall
        obtain ⟨rnA, errsA⟩ := resA
        obtain rfl : _ = repAll := by simpa using hall
        obtain ⟨resL, hL, hrel⟩ := bodyLoop_vs_all
          (filterChecks checks Option.none (some "body")) rowLimit M _ t.rows 0 _ _
          (rnA, errsA) hbl
        obtain ⟨rnL, errsL⟩ := resL
        rw [hL]
        dsimp only at hrel ⊢
        refine ⟨composeReport M rnL headers errsL, rfl, ?_, ?_⟩
        · rcases hrel with hrel | ⟨⟨tail, htail⟩, hMlen⟩
          · simp [composeReport, hrel]
          · simp only [composeReport]
            rw [← htail, List.take_append_of_le_length hMlen]
        · rcases hrel with hrel | ⟨⟨tail, htail⟩, hMlen⟩
          · simp [composeReport, hrel, List.length_take]
          · simp only [composeReport, List.length_take]
            rw [← htail]
            simp only [List.length_append]
            omega
  · intro bcs cols pos row rest rn sts errs cells hlim hbc hM
    simp only [bodyLoop]
    rw [if_neg hlim, hbc]
    dsimp only
    rw [if_pos hM]

/-- Witness for C5: under the always-erroring body check, error limit 1
truncates the two-error unlimited run to exactly its first error. -/
theorem c5_witness :
    inspectTableAll [noisyBody] 1000 fTable1 = Except.ok repAllW
    ∧ ∃ rep, inspectTable [noisyBody] 1000 1 fTable1 = Except.ok rep
        ∧ rep.errors = repAllW.errors.take 1
        ∧ rep.errors.length = min 1 repAllW.errors.length :=
  ⟨rfl, (c5_error_limit [noisyBody] 1000 1 fTable1 repAllW rfl).1⟩

/-- Reading a completed future by task identity: when task `i` occurs in
the completion schedule, the lookup returns exactly that task's outcome. -/
theorem lookup_map_self {β : Type} :
    ∀ (sched : List Nat) (g : Nat → β) (i : Nat), i ∈ sched →
    (sched.map fun j => (j, g j)).lookup i = some (g i) := by
  intro sched
  induction sched with
  | nil => intro g i h; simp at h
  | cons j rest ih =>
    intro g i h
    by_cases hij : i = j
    · subst hij
      simp [List.lookup]
    · have hmem : i ∈ rest := by
        rcases List.mem_cons.mp h with h2 | h2
        · exact absurd h2 hij
        · exact h2
      simp [List.lookup, show (i == j) = false from by simp [hij], ih g i hmem]

/-- Index bookkeeping for `enumerate(items, start=s)`: an element numbered
`n` sits at offset `n - s` of the underlying list. -/
theorem enum1_mem_spec {α : Type} :
    ∀ (l : List α) (s n : Nat) (x : α), (n, x) ∈ enum1 s l →
    s ≤ n ∧ n - s < l.length ∧ l[n - s]? = some x := by
  intro l
  induction l with
  | nil => intro s n x h; simp [enum1] at h
  | cons a as ih =>
    intro s n x h
    rcases List.mem_cons.mp h with h0 | htail
    · injection h0 with h1 h2
      subst h1
      subst h2
      exact ⟨Nat.le_refl _, by simp, by simp⟩
    · obtain ⟨h1, h2, h3⟩ := ih (s + 1) n x htail
      refine ⟨by omega, by simp only [List.length_cons]; omega, ?_⟩
      have he : n - s = (n - (s + 1)) + 1 := by omega
      rw [he, List.getElem?_cons_succ]
      exact h3

/-- With every queued future completed, the join loop collapses to the
sequential original-order collection. -/
theorem joinAux {σ : Type} [Inhabited σ] (checks : List (Check σ))
    (rowLimit errorLimit : Nat) (completed : List (Nat × Except PyExc Report)) :
    ∀ (items : List (Table × Meta)) (s : Nat),
    (∀ p ∈ enum1 s items,
      completed.lookup p.1 = some (inspectTable checks rowLimit errorLimit p.2.1)) →
    mapExcept (joinStep completed) (enum1 s items)
      = collectTables checks rowLimit errorLimit items := by
  intro items
  induction items with
  | nil => intro s h; rfl
  | cons it rest ih =>
    intro s h
    have hhead := h (s, it) (List.mem_cons_self ..)
    have htail := ih (s + 1) fun p hp => h p (List.mem_cons_of_mem _ hp)
    simp only [collectTables] at htail ⊢
    simp only [enum1, mapExcept]
    rw [show joinStep completed (s, it)
        = (match inspectTable checks rowLimit errorLimit it.1 with
           | Except.error e => Except.error e
           | Except.ok rep => Except.ok (⟨rep, it.2⟩ : TableEntry)) from by
      simp [joinStep, hhead]]
    cases hr : inspectTable checks rowLimit errorLimit it.1 with
    | error e => rfl
    | ok rep =>
      dsimp only
      rw [htail]

/-- C7: with the per-table tasks completing in an arbitrary order (any
permutation of the queued task indices), the join reassembles the
sequential original-order result: the aggregate is schedule-independent,
its entries pair each table's report with its positionally paired profile
metadata in the original truncated order, and the aggregate `valid` flag
is the conjunction of the listed reports' `valid` flags. -/
theorem c7_order_independent {σ : Type} [Inhabited σ] (checks : List (Check σ))
    (tableLimit rowLimit errorLimit : Nat) (dataset : List (Table × Meta))
    (sched : List Nat)
    (hperm : sched.Perm (List.range (truncateTables tableLimit dataset).length)) :
    inspectSched checks tableLimit rowLimit errorLimit dataset sched
      = inspectSched checks tableLimit rowLimit errorLimit dataset
          (List.range (truncateTables tableLimit dataset).length)
    ∧ ∀ agg, inspectSched checks tableLimit rowLimit errorLimit dataset sched
        = Except.ok agg →
      agg.tableCount = (truncateTables tableLimit dataset).length
      ∧ agg.valid = agg.tables.all (fun en => en.report.valid)
      ∧ collectTables checks rowLimit errorLimit (truncateTables tableLimit dataset)
          = Except.ok agg.tables := by
  have hjoin : ∀ (sc : List Nat),
      (∀ i, i < (truncateTables tableLimit dataset).length → i ∈ sc) →
      joinTasks
          (poolRun checks rowLimit errorLimit (truncateTables tableLimit dataset) sc)
          (truncateTables tableLimit dataset)
        = collectTables checks rowLimit errorLimit (truncateTables tableLimit dataset) := by
    intro sc hcov
    apply joinAux
    intro p hp
    obtain ⟨hs, hlt, hget⟩ :=
      enum1_mem_spec (truncateTables tableLimit dataset) 0 p.1 p.2 (by simpa using hp)
    have hn : p.1 < (truncateTables tableLimit dataset).length := by simpa using hlt
    have hget2 : (truncateTables tableLimit dataset)[p.1]? = some p.2 := by
      simpa using hget
    have hlk := lookup_map_self sc
      (fun i => match (truncateTables tableLimit dataset)[i]? with
        | some it => inspectTable checks rowLimit errorLimit it.1
        | Option.none => Except.error PyExc.futureMissing) p.1 (hcov p.1 hn)
    simp only [poolRun]
    rw [hlk]
    simp [hget2]
  constructor
  · simp only [inspectSched]
    rw [hjoin sched fun i hi => hperm.mem_iff.mpr (List.mem_range.mpr hi),
      hjoin (List.range (truncateTables tableLimit dataset).length)
        fun i hi => List.mem_range.mpr hi]
  · intro agg hagg
    simp only [inspectSched] at hagg
    rw [hjoin sched fun i hi => hperm.mem_iff.mpr (List.mem_range.mpr hi)] at hagg
    cases hct : collectTables checks rowLimit errorLimit
        (truncateTables tableLimit dataset) with
    | error e => rw [hct] at hagg; exact absurd hagg (by simp)
    | ok tables =>
      rw [hct] at hagg
      obtain rfl : _ = agg := by simpa using hagg
      exact ⟨rfl, rfl, rfl⟩

/-- Witness for C7: two tables joined under the reversed completion order
give the same aggregate as the in-order schedule. -/
theorem c7_witness :
    ([1, 0] : List Nat).Perm (List.range (truncateTables 10 datasetW).length)
    ∧ inspectSched ([] : List (Check Unit)) 10 1000 1000 datasetW [1, 0]
        = inspectSched ([] : List (Check Unit)) 10 1000 1000 datasetW
            (List.range (truncateTables 10 datasetW).length) :=
  ⟨by decide,
    (c7_order_independent ([] : List (Check Unit)) 10 1000 1000 datasetW [1, 0]
      (by decide)).1⟩

end Goodtables
